import Mathlib

/-!
Verification development for the chain-reconstruction engine of
rusty-blockparser.  The repository source available is `src/main.rs`:
the top-level orchestration (`main`, `load_chain_file`, `parse_args`).
The modules it calls (`blockchain::parser::chain::ChainStorage`,
`blockchain::utils::blkfile::BlkFile`, `blockchain::parser::BlockchainParser`,
the callbacks) are not part of the provided sources; where a claim depends on
them they are modelled from the specification, and each such definition's doc
comment says so and names the missing piece.  Everything else is translated
directly from `src/main.rs`.
-/

/-- ParseMode enumeration, from `blockchain::parser::ParseMode` as used by
`main.rs` (declared outside the provided sources, but its two variants are
fixed by the spec §3 and by the `match` arms in `main.rs`). -/
inductive ParseMode where
  | HeaderOnly
  | FullData
deriving DecidableEq, BEq, Repr

/-- Modelled from the spec: ChainStorage (§3, §4.5) — the module
`blockchain::parser::chain` is not among the provided sources.  The persisted
canonical chain is a height-ordered list of block hashes (`hashes`, abstract
digests), `index` is the first unprocessed position (so heights below `index`
are already processed), and `latest_blk_idx` is the highest archive file fully
scanned.  `len`, `remaining`, `get_cur_height` are the accessors `main.rs`
calls. -/
structure ChainStorage where
  hashes : List Nat
  index : Nat
  latest_blk_idx : Nat
deriving DecidableEq, Repr

/-- Number of canonical entries, `ChainStorage::len` in the source. -/
def ChainStorage.len (s : ChainStorage) : Nat := s.hashes.length

/-- Modelled from the spec (§4.5): `remaining()` — count of archive-indexed
blocks beyond the last fully processed height. -/
def ChainStorage.remaining (s : ChainStorage) : Nat := s.len - s.index

/-- Modelled from the spec (§4.5): `current_height()` accessor. -/
def ChainStorage.get_cur_height (s : ChainStorage) : Nat := s.index

/-- The fresh storage `ChainStorage::default()` used when no chain file
exists. -/
def ChainStorage.default : ChainStorage := ⟨[], 0, 0⟩

/-- Result of parsing the persisted chain-index file on disk: it is absent,
unparsable, or parses to a storage.  This is the state `ChainStorage::load`
observes. -/
inductive DiskFile where
  | absent
  | corrupt
  | good (s : ChainStorage)
deriving DecidableEq, Repr

/-- Error kinds of `ChainStorage::load`, from the spec §4.5: `NotFound` if the
file is absent, `CorruptState` on parse failure. -/
inductive LoadErr where
  | notFound
  | corruptState
deriving DecidableEq, Repr

/-- Modelled from the spec (§4.5): `load(path)` parses persisted state, fails
with `NotFound` if absent or `CorruptState` on parse failure (the
`blockchain::parser::chain` module is not among the provided sources). -/
def ChainStorage.load (d : DiskFile) : Except LoadErr ChainStorage :=
  match d with
  | DiskFile.absent => Except.error LoadErr.notFound
  | DiskFile.corrupt => Except.error LoadErr.corruptState
  | DiskFile.good s => Except.ok s

/-- The filesystem state visible to `main`: the chain-index file, plus whether
an attempted `fs::remove_file` on it would fail (permissions etc.). -/
structure FileSystem where
  chainFile : DiskFile
  removeFails : Bool
deriving DecidableEq, Repr

/-- Translation of `load_chain_file` (`main.rs` lines 122–134): on `Ok` return
the storage; on `NotFound` return `ChainStorage::default()`; on any other load
error the function panics (modelled as `Except.error`). -/
def load_chain_file (fs : FileSystem) : Except LoadErr ChainStorage :=
  match ChainStorage.load fs.chainFile with
  | Except.ok storage => Except.ok storage
  | Except.error e =>
    match e with
    | LoadErr.notFound => Except.ok ChainStorage.default
    | LoadErr.corruptState => Except.error LoadErr.corruptState

/-- Translation of `fs::remove_file(path)` as called by `main.rs` line 67: it
either deletes the chain-index file or fails leaving the filesystem unchanged;
the returned `Except` is the `Result` that `main` discards with `.ok()`. -/
def remove_file (fs : FileSystem) : FileSystem × Except Unit Unit :=
  if fs.removeFails then (fs, Except.error ())
  else ({ fs with chainFile := DiskFile.absent }, Except.ok ())

/-- Mode selection from `main.rs` lines 79–82: `HeaderOnly` exactly when the
loaded chain file is empty or resume is in effect, else `FullData`. -/
def chooseMode (chain_file : ChainStorage) (resume : Bool) : ParseMode :=
  match chain_file.len == 0 || resume with
  | true => ParseMode.HeaderOnly
  | false => ParseMode.FullData

/-- Starting archive index from `main.rs` lines 85–88: `0` for `HeaderOnly`,
the persisted `latest_blk_idx` for `FullData`. -/
def startIdxOf (chain_file : ChainStorage) (m : ParseMode) : Nat :=
  match m with
  | ParseMode.HeaderOnly => 0
  | ParseMode.FullData => chain_file.latest_blk_idx

/-- Observable events of one run of `main`'s loop, in order: each iteration
loads the chain file, chooses a mode, enumerates archive files from a start
index, and then either reports nothing-to-do or runs the parser and finishes
the iteration. -/
inductive Event where
  | loaded (chain_file : ChainStorage)
  | modeChosen (m : ParseMode)
  | enumArchives (start_blk_idx : Nat)
  | nothingToDo (height : Nat)
  | parserRun (m : ParseMode)
  | iterFinished (i : Nat)
deriving DecidableEq, Repr

/-- How the process ends: falling off the end of `main` (exit status 0),
an explicit `process::exit(code)`, or a panic. -/
inductive Outcome where
  | seeYa
  | processExit (code : Nat)
  | panicked
deriving DecidableEq, Repr

/-- Whether an outcome is a successful (status 0) termination. -/
def Outcome.isSuccess : Outcome → Bool
  | Outcome.seeYa => true
  | Outcome.processExit c => c == 0
  | Outcome.panicked => false

/-- Result of one loop iteration: stop the loop with an outcome, or continue
with the updated filesystem. -/
inductive IterExit where
  | stop (o : Outcome)
  | next (fs : FileSystem)
deriving DecidableEq, Repr

/-- Modelled from the spec (§4.6): the effect of `parser.run`/`dispatch` on
the persisted chain file — `BlockchainParser` is not among the provided
sources.  A HeaderOnly phase persists the (re)established canonical chain,
written here as the abstract parameter `scan` (the chain the header scan
computes for this corpus); after a FullData phase the loop stops, so its save
is irrelevant to the observable control flow and the file is left as-is. -/
def parserEffect (m : ParseMode) (scan : ChainStorage) (fs : FileSystem) :
    FileSystem :=
  match m with
  | ParseMode.HeaderOnly => { fs with chainFile := DiskFile.good scan }
  | ParseMode.FullData => fs

/-- One iteration of the `for i in 0..iterations` loop of `main.rs`
(lines 73–115): load the chain file (panicking load stops everything),
choose the parse mode, compute the start index and enumerate archive files,
exit with status 1 when FullData has nothing left, otherwise run the parser;
a FullData iteration breaks out of the loop. -/
def iterate (scan : ChainStorage) (fs : FileSystem) (resume : Bool) (i : Nat) :
    List Event × IterExit :=
  match load_chain_file fs with
  | Except.error _ => ([], IterExit.stop Outcome.panicked)
  | Except.ok chain_file =>
    let parse_mode := chooseMode chain_file resume
    let start_blk_idx := startIdxOf chain_file parse_mode
    let evts := [Event.loaded chain_file, Event.modeChosen parse_mode,
                 Event.enumArchives start_blk_idx]
    if parse_mode == ParseMode.FullData && chain_file.remaining == 0 then
      (evts ++ [Event.nothingToDo chain_file.get_cur_height],
       IterExit.stop (Outcome.processExit 1))
    else
      let fs2 := parserEffect parse_mode scan fs
      let evts2 := evts ++ [Event.parserRun parse_mode, Event.iterFinished i]
      if parse_mode == ParseMode.FullData then
        (evts2, IterExit.stop Outcome.seeYa)
      else
        (evts2, IterExit.next fs2)

/-- The loop of `main.rs` lines 73–116, with the iteration budget as fuel
(`iterations = 2` in the source) and the resume flag reset to `false` after
an iteration that continues (lines 113–115). -/
def mainLoop (scan : ChainStorage) :
    FileSystem → Bool → Nat → Nat → List Event × Outcome
  | _, _, _, 0 => ([], Outcome.seeYa)
  | fs, resume, i, fuel + 1 =>
    match iterate scan fs resume i with
    | (evts, IterExit.stop o) => (evts, o)
    | (evts, IterExit.next fs2) =>
      let rest := mainLoop scan fs2 false (i + 1) fuel
      (evts ++ rest.1, rest.2)

/-- The callback kinds registered in `main.rs` lines 186–193. -/
inductive CallbackKind where
  | simplestats
  | csvdump
deriving DecidableEq, Repr

/-- Modelled from the spec (§6): a configured callback — the callback modules
are not among the provided sources; what matters to the claims is which
callback was selected and the exact argument list its `parse_args`
(configure step) received. -/
structure CallbackInst where
  kind : CallbackKind
  args : List String
deriving DecidableEq, Repr

/-- Translation of the `ParserOptions` struct of `main.rs` lines 39–51. -/
structure ParserOptions where
  callback : CallbackInst
  verify_merkle_root : Bool
  thread_count : Nat
  resume : Bool
  new : Bool
  blockchain_dir : String
  chain_storage_path : String
  worker_backlog : Nat
  verbose : Bool
  debug : Bool
deriving DecidableEq, Repr

/-- The command-line values after argparse has filled them in (`main.rs`
lines 139–176): the user-selected callback name, the user's callback argument
tokens, and the flag/option values. -/
structure ArgInput where
  callback_name : String
  callback_args : List String
  verify_merkle_root : Bool
  thread_count : Nat
  resume : Bool
  new : Bool
  blockchain_dir : String
  chain_storage_path : String
  worker_backlog : Nat
  verbose : Bool
  debug : Bool
deriving DecidableEq, Repr

/-- The synthetic token `format!("Callback {:?}", callback_name)` of `main.rs`
line 183.  Rust's `{:?}` on a `String` wraps it in double quotes (escaping
would apply to quote or backslash characters, which cannot occur in the only
two names accepted downstream). -/
def syntheticToken (callback_name : String) : String :=
  "Callback \"" ++ callback_name ++ "\""

/-- Translation of `parse_args` after argparse (`main.rs` lines 178–205):
reject `--new` together with `--resume` with `process::exit(2)`; prepend the
synthetic token to the callback arguments; construct the selected callback or
`process::exit(2)` on an unknown name.  `Except.error c` models
`process::exit(c)`. -/
def parse_args (a : ArgInput) : Except Nat ParserOptions :=
  if a.new && a.resume then
    Except.error 2
  else
    let callback_args := syntheticToken a.callback_name :: a.callback_args
    let cbk : Except Nat CallbackInst :=
      match a.callback_name with
      | "simplestats" => Except.ok ⟨CallbackKind.simplestats, callback_args⟩
      | "csvdump" => Except.ok ⟨CallbackKind.csvdump, callback_args⟩
      | _ => Except.error 2
    match cbk with
    | Except.error c => Except.error c
    | Except.ok callback =>
      Except.ok
        { callback := callback
          verify_merkle_root := a.verify_merkle_root
          thread_count := a.thread_count
          resume := a.resume
          new := a.new
          blockchain_dir := a.blockchain_dir
          chain_storage_path := a.chain_storage_path
          worker_backlog := a.worker_backlog
          verbose := a.verbose
          debug := a.debug }

/-- The body of `main` after argument parsing (`main.rs` lines 66–118):
delete the chain file when `--new` was given, discarding any deletion error
(`.ok()`), then run the two-iteration loop. -/
def mainRunOpts (options : ParserOptions) (scan : ChainStorage)
    (fs : FileSystem) : List Event × Outcome :=
  let fs1 := if options.new then (remove_file fs).1 else fs
  mainLoop scan fs1 options.resume 0 2

/-- The whole of `main` (`main.rs` lines 53–119): `parse_args` first (its
`process::exit` happens before anything touches the filesystem), then the
loop body. -/
def mainProgram (a : ArgInput) (scan : ChainStorage) (fs : FileSystem) :
    List Event × Outcome :=
  match parse_args a with
  | Except.error code => ([], Outcome.processExit code)
  | Except.ok options => mainRunOpts options scan fs

/-- Chain storages loaded during a run, in order. -/
def loadsOf (evts : List Event) : List ChainStorage :=
  evts.filterMap fun e =>
    match e with
    | Event.loaded chain_file => some chain_file
    | _ => none

/-- Parse modes chosen during a run, in order. -/
def modesOf (evts : List Event) : List ParseMode :=
  evts.filterMap fun e =>
    match e with
    | Event.modeChosen m => some m
    | _ => none

/-- Archive-enumeration start indices of a run, in order. -/
def enumsOf (evts : List Event) : List Nat :=
  evts.filterMap fun e =>
    match e with
    | Event.enumArchives k => some k
    | _ => none

/-- Parser phases actually run, in order. -/
def runsOf (evts : List Event) : List ParseMode :=
  evts.filterMap fun e =>
    match e with
    | Event.parserRun m => some m
    | _ => none

/-- Indices of finished iterations, in order. -/
def itersOf (evts : List Event) : List Nat :=
  evts.filterMap fun e =>
    match e with
    | Event.iterFinished i => some i
    | _ => none

example :
    mainLoop ⟨[1, 2], 0, 4⟩ ⟨DiskFile.absent, false⟩ false 0 2 =
      ([Event.loaded ChainStorage.default, Event.modeChosen ParseMode.HeaderOnly,
        Event.enumArchives 0, Event.parserRun ParseMode.HeaderOnly,
        Event.iterFinished 0,
        Event.loaded ⟨[1, 2], 0, 4⟩, Event.modeChosen ParseMode.FullData,
        Event.enumArchives 4, Event.parserRun ParseMode.FullData,
        Event.iterFinished 1], Outcome.seeYa) := by decide

example :
    (mainLoop ⟨[], 0, 0⟩ ⟨DiskFile.good ⟨[5, 6], 2, 3⟩, false⟩ false 0 2).2 =
      Outcome.processExit 1 := by decide

/-- Events of a HeaderOnly iteration `i` that loaded `cf`. -/
def hoTrace (cf : ChainStorage) (i : Nat) : List Event :=
  [Event.loaded cf, Event.modeChosen ParseMode.HeaderOnly, Event.enumArchives 0,
   Event.parserRun ParseMode.HeaderOnly, Event.iterFinished i]

/-- Events of a FullData iteration that loaded `cf` and found nothing left. -/
def noopTrace (cf : ChainStorage) : List Event :=
  [Event.loaded cf, Event.modeChosen ParseMode.FullData,
   Event.enumArchives cf.latest_blk_idx, Event.nothingToDo cf.get_cur_height]

/-- Events of a completed FullData iteration `i` that loaded `cf`. -/
def fdTrace (cf : ChainStorage) (i : Nat) : List Event :=
  [Event.loaded cf, Event.modeChosen ParseMode.FullData,
   Event.enumArchives cf.latest_blk_idx, Event.parserRun ParseMode.FullData,
   Event.iterFinished i]

lemma load_chain_file_absent (fs : FileSystem)
    (h : fs.chainFile = DiskFile.absent) :
    load_chain_file fs = Except.ok ChainStorage.default := by
  simp [load_chain_file, ChainStorage.load, h]

lemma load_chain_file_corrupt (fs : FileSystem)
    (h : fs.chainFile = DiskFile.corrupt) :
    load_chain_file fs = Except.error LoadErr.corruptState := by
  simp [load_chain_file, ChainStorage.load, h]

lemma load_chain_file_good (fs : FileSystem) (s : ChainStorage)
    (h : fs.chainFile = DiskFile.good s) :
    load_chain_file fs = Except.ok s := by
  simp [load_chain_file, ChainStorage.load, h]

lemma load_chain_file_cases (fs : FileSystem) :
    (∃ cf, load_chain_file fs = Except.ok cf) ∨
    (fs.chainFile = DiskFile.corrupt ∧
      load_chain_file fs = Except.error LoadErr.corruptState) := by
  cases h : fs.chainFile with
  | absent => exact Or.inl ⟨ChainStorage.default, load_chain_file_absent fs h⟩
  | corrupt => exact Or.inr ⟨rfl, load_chain_file_corrupt fs h⟩
  | good s => exact Or.inl ⟨s, load_chain_file_good fs s h⟩

@[simp] lemma parseMode_beq_ho_fd :
    (ParseMode.HeaderOnly == ParseMode.FullData) = false := rfl

@[simp] lemma parseMode_beq_fd_fd :
    (ParseMode.FullData == ParseMode.FullData) = true := rfl

@[simp] lemma parseMode_beq_fd_ho :
    (ParseMode.FullData == ParseMode.HeaderOnly) = false := rfl

@[simp] lemma parseMode_beq_ho_ho :
    (ParseMode.HeaderOnly == ParseMode.HeaderOnly) = true := rfl

lemma chooseMode_headerOnly_iff (cf : ChainStorage) (r : Bool) :
    chooseMode cf r = ParseMode.HeaderOnly ↔ (cf.len = 0 ∨ r = true) := by
  unfold chooseMode
  cases hl : cf.len == 0 <;> cases r <;> simp_all

lemma chooseMode_fullData_iff (cf : ChainStorage) (r : Bool) :
    chooseMode cf r = ParseMode.FullData ↔ (cf.len ≠ 0 ∧ r = false) := by
  unfold chooseMode
  cases hl : cf.len == 0 <;> cases r <;> simp_all

lemma chooseMode_total (cf : ChainStorage) (r : Bool) :
    chooseMode cf r = ParseMode.HeaderOnly ∨
    chooseMode cf r = ParseMode.FullData := by
  unfold chooseMode
  cases cf.len == 0 || r <;> simp

lemma iterate_panicked (scan : ChainStorage) (fs : FileSystem) (resume : Bool)
    (i : Nat) (h : fs.chainFile = DiskFile.corrupt) :
    iterate scan fs resume i = ([], IterExit.stop Outcome.panicked) := by
  unfold iterate
  rw [load_chain_file_corrupt fs h]

lemma iterate_headerOnly (scan : ChainStorage) (fs : FileSystem)
    (resume : Bool) (i : Nat) (cf : ChainStorage)
    (h : load_chain_file fs = Except.ok cf)
    (hm : chooseMode cf resume = ParseMode.HeaderOnly) :
    iterate scan fs resume i =
      (hoTrace cf i,
       IterExit.next { fs with chainFile := DiskFile.good scan }) := by
  unfold iterate
  rw [h]
  simp [hm, startIdxOf, parserEffect, hoTrace]

lemma iterate_noop (scan : ChainStorage) (fs : FileSystem)
    (resume : Bool) (i : Nat) (cf : ChainStorage)
    (h : load_chain_file fs = Except.ok cf)
    (hm : chooseMode cf resume = ParseMode.FullData)
    (hr : cf.remaining = 0) :
    iterate scan fs resume i =
      (noopTrace cf, IterExit.stop (Outcome.processExit 1)) := by
  unfold iterate
  rw [h]
  simp [hm, hr, startIdxOf, noopTrace]

lemma iterate_fullData (scan : ChainStorage) (fs : FileSystem)
    (resume : Bool) (i : Nat) (cf : ChainStorage)
    (h : load_chain_file fs = Except.ok cf)
    (hm : chooseMode cf resume = ParseMode.FullData)
    (hr : cf.remaining ≠ 0) :
    iterate scan fs resume i =
      (fdTrace cf i, IterExit.stop Outcome.seeYa) := by
  unfold iterate
  rw [h]
  simp [hm, hr, startIdxOf, parserEffect, fdTrace]

lemma mainLoop_step_stop (scan : ChainStorage) (fs : FileSystem)
    (resume : Bool) (i fuel : Nat) (evts : List Event) (o : Outcome)
    (h : iterate scan fs resume i = (evts, IterExit.stop o)) :
    mainLoop scan fs resume i (fuel + 1) = (evts, o) := by
  have e : mainLoop scan fs resume i (fuel + 1) =
      (match iterate scan fs resume i with
       | (evts, IterExit.stop o) => (evts, o)
       | (evts, IterExit.next fs2) =>
         let rest := mainLoop scan fs2 false (i + 1) fuel
         (evts ++ rest.1, rest.2)) := rfl
  rw [e, h]

lemma mainLoop_step_next (scan : ChainStorage) (fs : FileSystem)
    (resume : Bool) (i fuel : Nat) (evts : List Event) (fs2 : FileSystem)
    (h : iterate scan fs resume i = (evts, IterExit.next fs2)) :
    mainLoop scan fs resume i (fuel + 1) =
      (evts ++ (mainLoop scan fs2 false (i + 1) fuel).1,
       (mainLoop scan fs2 false (i + 1) fuel).2) := by
  have e : mainLoop scan fs resume i (fuel + 1) =
      (match iterate scan fs resume i with
       | (evts, IterExit.stop o) => (evts, o)
       | (evts, IterExit.next fs2) =>
         let rest := mainLoop scan fs2 false (i + 1) fuel
         (evts ++ rest.1, rest.2)) := rfl
  rw [e, h]

/-- Exhaustive description of the possible runs of `main`'s loop: a panicking
load; a first-iteration FullData that either finds nothing to do or completes;
or a HeaderOnly first iteration followed by a second iteration over the freshly
written chain `scan`, which itself is HeaderOnly, nothing-to-do FullData, or a
completed FullData. -/
lemma mainLoop_shape (scan : ChainStorage) (fs : FileSystem) (r : Bool) :
    (fs.chainFile = DiskFile.corrupt ∧
       mainLoop scan fs r 0 2 = ([], Outcome.panicked)) ∨
    (∃ cf, load_chain_file fs = Except.ok cf ∧
      ((chooseMode cf r = ParseMode.FullData ∧ cf.remaining = 0 ∧
          mainLoop scan fs r 0 2 = (noopTrace cf, Outcome.processExit 1)) ∨
       (chooseMode cf r = ParseMode.FullData ∧ cf.remaining ≠ 0 ∧
          mainLoop scan fs r 0 2 = (fdTrace cf 0, Outcome.seeYa)) ∨
       (chooseMode cf r = ParseMode.HeaderOnly ∧
         ((chooseMode scan false = ParseMode.HeaderOnly ∧
            mainLoop scan fs r 0 2 =
              (hoTrace cf 0 ++ hoTrace scan 1, Outcome.seeYa)) ∨
          (chooseMode scan false = ParseMode.FullData ∧ scan.remaining = 0 ∧
            mainLoop scan fs r 0 2 =
              (hoTrace cf 0 ++ noopTrace scan, Outcome.processExit 1)) ∨
          (chooseMode scan false = ParseMode.FullData ∧ scan.remaining ≠ 0 ∧
            mainLoop scan fs r 0 2 =
              (hoTrace cf 0 ++ fdTrace scan 1, Outcome.seeYa)))))) := by
  have h2 : mainLoop scan fs r 0 2 = mainLoop scan fs r 0 (1 + 1) := rfl
  rcases load_chain_file_cases fs with ⟨cf, hcf⟩ | ⟨hc, _⟩
  · right
    refine ⟨cf, hcf, ?_⟩
    rcases chooseMode_total cf r with hm | hm
    · right; right
      refine ⟨hm, ?_⟩
      have hfs2 : load_chain_file { fs with chainFile := DiskFile.good scan } =
          Except.ok scan := load_chain_file_good _ scan rfl
      rcases chooseMode_total scan false with hm2 | hm2
      · left
        refine ⟨hm2, ?_⟩
        rw [h2, mainLoop_step_next scan fs r 0 1 _ _
            (iterate_headerOnly scan fs r 0 cf hcf hm)]
        have h1 : mainLoop scan { fs with chainFile := DiskFile.good scan }
            false (0 + 1) 1 = mainLoop scan
            { fs with chainFile := DiskFile.good scan } false (0 + 1) (0 + 1) :=
          rfl
        rw [h1, mainLoop_step_next scan _ false (0 + 1) 0 _ _
            (iterate_headerOnly scan _ false (0 + 1) scan hfs2 hm2)]
        simp [mainLoop]
      · by_cases hr2 : scan.remaining = 0
        · right; left
          refine ⟨hm2, hr2, ?_⟩
          rw [h2, mainLoop_step_next scan fs r 0 1 _ _
              (iterate_headerOnly scan fs r 0 cf hcf hm)]
          have h1 : mainLoop scan { fs with chainFile := DiskFile.good scan }
              false (0 + 1) 1 = mainLoop scan
              { fs with chainFile := DiskFile.good scan } false (0 + 1)
              (0 + 1) := rfl
          rw [h1, mainLoop_step_stop scan _ false (0 + 1) 0 _ _
              (iterate_noop scan _ false (0 + 1) scan hfs2 hm2 hr2)]
        · right; right
          refine ⟨hm2, hr2, ?_⟩
          rw [h2, mainLoop_step_next scan fs r 0 1 _ _
              (iterate_headerOnly scan fs r 0 cf hcf hm)]
          have h1 : mainLoop scan { fs with chainFile := DiskFile.good scan }
              false (0 + 1) 1 = mainLoop scan
              { fs with chainFile := DiskFile.good scan } false (0 + 1)
              (0 + 1) := rfl
          rw [h1, mainLoop_step_stop scan _ false (0 + 1) 0 _ _
              (iterate_fullData scan _ false (0 + 1) scan hfs2 hm2 hr2)]
    · by_cases hr : cf.remaining = 0
      · left
        refine ⟨hm, hr, ?_⟩
        rw [h2, mainLoop_step_stop scan fs r 0 1 _ _
            (iterate_noop scan fs r 0 cf hcf hm hr)]
      · right; left
        refine ⟨hm, hr, ?_⟩
        rw [h2, mainLoop_step_stop scan fs r 0 1 _ _
            (iterate_fullData scan fs r 0 cf hcf hm hr)]
  · left
    refine ⟨hc, ?_⟩
    rw [h2, mainLoop_step_stop scan fs r 0 1 _ _
        (iterate_panicked scan fs r 0 hc)]

/-- Claim C1: every run makes at most two top-level iterations; each iteration
(re)loads the chain storage, and the parse mode is HeaderOnly exactly when the
loaded chain storage has length 0 or resume is in effect; the resume flag only
applies to the first iteration (the second iteration's mode is computed with
resume off over the freshly written chain storage `scan`, and is FullData
whenever that storage is non-empty); the loop stops as soon as a FullData
iteration completes. -/
theorem main_two_iteration_policy (scan : ChainStorage) (fs : FileSystem)
    (r : Bool) :
    (loadsOf (mainLoop scan fs r 0 2).1).length ≤ 2 ∧
    (modesOf (mainLoop scan fs r 0 2).1).length =
      (loadsOf (mainLoop scan fs r 0 2).1).length ∧
    modesOf (mainLoop scan fs r 0 2).1 =
      List.zipWith chooseMode (loadsOf (mainLoop scan fs r 0 2).1) [r, false] ∧
    (∀ cf b, chooseMode cf b = ParseMode.HeaderOnly ↔ (cf.len = 0 ∨ b = true)) ∧
    ((modesOf (mainLoop scan fs r 0 2).1).get? 0 = some ParseMode.HeaderOnly →
      (loadsOf (mainLoop scan fs r 0 2).1).get? 1 = some scan ∧
      (scan.len ≠ 0 → (modesOf (mainLoop scan fs r 0 2).1).get? 1 =
        some ParseMode.FullData)) ∧
    (runsOf (mainLoop scan fs r 0 2).1).count ParseMode.FullData ≤ 1 ∧
    (ParseMode.FullData ∈ runsOf (mainLoop scan fs r 0 2).1 →
      (runsOf (mainLoop scan fs r 0 2).1).getLast? = some ParseMode.FullData ∧
      (mainLoop scan fs r 0 2).2 = Outcome.seeYa) := by
  rcases mainLoop_shape scan fs r with ⟨hc, heq⟩ | ⟨cf, hcf, hcase⟩
  · rw [heq]
    exact ⟨by simp [loadsOf, modesOf, runsOf, hoTrace, noopTrace, fdTrace, List.count_cons, List.count_nil], by simp [loadsOf, modesOf, runsOf, hoTrace, noopTrace, fdTrace, List.count_cons, List.count_nil], by simp [loadsOf, modesOf, runsOf, hoTrace, noopTrace, fdTrace, List.count_cons, List.count_nil],
      fun cf b => chooseMode_headerOnly_iff cf b,
      by simp [modesOf], by simp [loadsOf, modesOf, runsOf, hoTrace, noopTrace, fdTrace, List.count_cons, List.count_nil], by simp [runsOf]⟩
  · rcases hcase with ⟨hm, hr, heq⟩ | ⟨hm, hr, heq⟩ | ⟨hm, hsub⟩
    · rw [heq]
      exact ⟨by simp [loadsOf, modesOf, runsOf, hoTrace, noopTrace, fdTrace, List.count_cons, List.count_nil], by simp [loadsOf, modesOf, runsOf, hoTrace, noopTrace, fdTrace, List.count_cons, List.count_nil], by simp [loadsOf, modesOf, noopTrace, hm],
        fun cf b => chooseMode_headerOnly_iff cf b,
        by simp [modesOf, noopTrace], by simp [loadsOf, modesOf, runsOf, hoTrace, noopTrace, fdTrace, List.count_cons, List.count_nil], by simp [runsOf, noopTrace]⟩
    · rw [heq]
      exact ⟨by simp [loadsOf, modesOf, runsOf, hoTrace, noopTrace, fdTrace, List.count_cons, List.count_nil], by simp [loadsOf, modesOf, runsOf, hoTrace, noopTrace, fdTrace, List.count_cons, List.count_nil], by simp [loadsOf, modesOf, fdTrace, hm],
        fun cf b => chooseMode_headerOnly_iff cf b,
        by simp [modesOf, fdTrace], by simp [loadsOf, modesOf, runsOf, hoTrace, noopTrace, fdTrace, List.count_cons, List.count_nil], fun _ => ⟨rfl, rfl⟩⟩
    · rcases hsub with ⟨hm2, heq⟩ | ⟨hm2, hr2, heq⟩ | ⟨hm2, hr2, heq⟩
      · rw [heq]
        have hlen0 : scan.len = 0 := by
          rcases (chooseMode_headerOnly_iff scan false).1 hm2 with h | h
          · exact h
          · cases h
        exact ⟨by simp [loadsOf, modesOf, runsOf, hoTrace, noopTrace, fdTrace, List.count_cons, List.count_nil], by simp [loadsOf, modesOf, runsOf, hoTrace, noopTrace, fdTrace, List.count_cons, List.count_nil],
          by simp [loadsOf, modesOf, hoTrace, hm, hm2],
          fun cf b => chooseMode_headerOnly_iff cf b,
          fun _ => ⟨rfl, fun hne => absurd hlen0 hne⟩,
          by simp [loadsOf, modesOf, runsOf, hoTrace, noopTrace, fdTrace, List.count_cons, List.count_nil], by simp [runsOf, hoTrace]⟩
      · rw [heq]
        exact ⟨by simp [loadsOf, modesOf, runsOf, hoTrace, noopTrace, fdTrace, List.count_cons, List.count_nil], by simp [loadsOf, modesOf, runsOf, hoTrace, noopTrace, fdTrace, List.count_cons, List.count_nil],
          by simp [loadsOf, modesOf, hoTrace, noopTrace, hm, hm2],
          fun cf b => chooseMode_headerOnly_iff cf b,
          fun _ => ⟨rfl, fun _ => rfl⟩,
          by simp [loadsOf, modesOf, runsOf, hoTrace, noopTrace, fdTrace, List.count_cons, List.count_nil], by simp [runsOf, hoTrace, noopTrace]⟩
      · rw [heq]
        exact ⟨by simp [loadsOf, modesOf, runsOf, hoTrace, noopTrace, fdTrace, List.count_cons, List.count_nil], by simp [loadsOf, modesOf, runsOf, hoTrace, noopTrace, fdTrace, List.count_cons, List.count_nil],
          by simp [loadsOf, modesOf, hoTrace, fdTrace, hm, hm2],
          fun cf b => chooseMode_headerOnly_iff cf b,
          fun _ => ⟨rfl, fun _ => rfl⟩,
          by simp [loadsOf, modesOf, runsOf, hoTrace, noopTrace, fdTrace, List.count_cons, List.count_nil], fun _ => ⟨rfl, rfl⟩⟩

/-- Witness for C1 at a concrete scan chain, filesystem and resume flag. -/
theorem main_two_iteration_policy_witness :
    (loadsOf (mainLoop ⟨[3], 0, 1⟩ ⟨DiskFile.absent, false⟩ true 0 2).1).length
        ≤ 2 ∧
    (modesOf (mainLoop ⟨[3], 0, 1⟩ ⟨DiskFile.absent, false⟩ true 0 2).1).length
        = (loadsOf
            (mainLoop ⟨[3], 0, 1⟩ ⟨DiskFile.absent, false⟩ true 0 2).1).length ∧
    modesOf (mainLoop ⟨[3], 0, 1⟩ ⟨DiskFile.absent, false⟩ true 0 2).1 =
      List.zipWith chooseMode
        (loadsOf (mainLoop ⟨[3], 0, 1⟩ ⟨DiskFile.absent, false⟩ true 0 2).1)
        [true, false] ∧
    (∀ cf b, chooseMode cf b = ParseMode.HeaderOnly ↔ (cf.len = 0 ∨ b = true)) ∧
    ((modesOf (mainLoop ⟨[3], 0, 1⟩ ⟨DiskFile.absent, false⟩ true 0 2).1).get? 0
        = some ParseMode.HeaderOnly →
      (loadsOf (mainLoop ⟨[3], 0, 1⟩ ⟨DiskFile.absent, false⟩ true 0 2).1).get?
        1 = some ⟨[3], 0, 1⟩ ∧
      ((⟨[3], 0, 1⟩ : ChainStorage).len ≠ 0 →
        (modesOf
          (mainLoop ⟨[3], 0, 1⟩ ⟨DiskFile.absent, false⟩ true 0 2).1).get? 1 =
          some ParseMode.FullData)) ∧
    (runsOf (mainLoop ⟨[3], 0, 1⟩ ⟨DiskFile.absent, false⟩ true 0 2).1).count
      ParseMode.FullData ≤ 1 ∧
    (ParseMode.FullData ∈
        runsOf (mainLoop ⟨[3], 0, 1⟩ ⟨DiskFile.absent, false⟩ true 0 2).1 →
      (runsOf
        (mainLoop ⟨[3], 0, 1⟩ ⟨DiskFile.absent, false⟩ true 0 2).1).getLast? =
        some ParseMode.FullData ∧
      (mainLoop ⟨[3], 0, 1⟩ ⟨DiskFile.absent, false⟩ true 0 2).2 =
        Outcome.seeYa) :=
  main_two_iteration_policy ⟨[3], 0, 1⟩ ⟨DiskFile.absent, false⟩ true

lemma mainLoop_corrupt (scan : ChainStorage) (fs : FileSystem) (r : Bool)
    (h : fs.chainFile = DiskFile.corrupt) :
    mainLoop scan fs r 0 2 = ([], Outcome.panicked) := by
  have h2 : mainLoop scan fs r 0 2 = mainLoop scan fs r 0 (1 + 1) := rfl
  rw [h2, mainLoop_step_stop scan fs r 0 1 _ _ (iterate_panicked scan fs r 0 h)]

/-- Claim C8: the top-level control flow is bounded: the whole run emits a
constant-bounded event trace, at most two iterations finish, every chosen mode
is one of the two states of the {HeaderOnly, FullData} machine, and a FullData
parser run is always the last one. -/
theorem main_loop_terminates (scan : ChainStorage) (fs : FileSystem)
    (r : Bool) :
    (mainLoop scan fs r 0 2).1.length ≤ 10 ∧
    (itersOf (mainLoop scan fs r 0 2).1).length ≤ 2 ∧
    (∀ m, m ∈ modesOf (mainLoop scan fs r 0 2).1 →
      m = ParseMode.HeaderOnly ∨ m = ParseMode.FullData) ∧
    (ParseMode.FullData ∈ runsOf (mainLoop scan fs r 0 2).1 →
      (runsOf (mainLoop scan fs r 0 2).1).getLast? =
        some ParseMode.FullData) := by
  have hfsm : ∀ m : ParseMode,
      m = ParseMode.HeaderOnly ∨ m = ParseMode.FullData := by
    intro m; cases m
    · exact Or.inl rfl
    · exact Or.inr rfl
  rcases mainLoop_shape scan fs r with ⟨hc, heq⟩ | ⟨cf, hcf, hcase⟩
  · rw [heq]
    exact ⟨by simp, by simp [itersOf], fun m _ => hfsm m, by simp [runsOf]⟩
  · rcases hcase with ⟨hm, hr, heq⟩ | ⟨hm, hr, heq⟩ | ⟨hm, hsub⟩
    · rw [heq]
      exact ⟨by simp [noopTrace], by simp [itersOf, noopTrace],
        fun m _ => hfsm m, by simp [runsOf, noopTrace]⟩
    · rw [heq]
      exact ⟨by simp [fdTrace], by simp [itersOf, fdTrace],
        fun m _ => hfsm m, fun _ => rfl⟩
    · rcases hsub with ⟨hm2, heq⟩ | ⟨hm2, hr2, heq⟩ | ⟨hm2, hr2, heq⟩ <;>
        rw [heq]
      · exact ⟨by simp [hoTrace], by simp [itersOf, hoTrace],
          fun m _ => hfsm m, by simp [runsOf, hoTrace]⟩
      · exact ⟨by simp [hoTrace, noopTrace],
          by simp [itersOf, hoTrace, noopTrace],
          fun m _ => hfsm m, by simp [runsOf, hoTrace, noopTrace]⟩
      · exact ⟨by simp [hoTrace, fdTrace],
          by simp [itersOf, hoTrace, fdTrace],
          fun m _ => hfsm m, fun _ => rfl⟩

/-- Chain storage with full history and nothing left to process (two entries,
both already processed), used against claim C2. -/
def csFull : ChainStorage := ⟨[7, 8], 2, 3⟩

/-- Filesystem whose persisted chain file is `csFull`. -/
def fsFull : FileSystem := ⟨DiskFile.good csFull, false⟩

/-- Claim C2 (counterexample): with a full-history chain file loaded and
FullData selected (zero remaining blocks), the engine reports nothing-to-do
before constructing the parser, but it terminates through `process::exit(1)` —
a nonzero exit status, so the run does not exit "without error" as the claim
states. -/
theorem nothing_to_do_exit_nonzero_cex :
    chooseMode csFull false = ParseMode.FullData ∧
    csFull.remaining = 0 ∧
    (mainLoop ChainStorage.default fsFull false 0 2).2 =
      Outcome.processExit 1 ∧
    Outcome.isSuccess (mainLoop ChainStorage.default fsFull false 0 2).2 =
      false := by decide

/-- Claim C2 (amended): when the parse mode is FullData and the loaded chain
storage reports zero remaining blocks, the engine reports nothing-to-do and
exits via the dedicated exit status 1 — a stable code distinct from the
configuration-error status 2 and from a panic, recognizable by automation —
and the trace stops right after the report: the parser is never constructed
and no parser phase (hence no callback) runs. -/
theorem nothing_to_do_noop_exit (scan : ChainStorage) (fs : FileSystem)
    (r : Bool) (cf : ChainStorage) (h : load_chain_file fs = Except.ok cf)
    (hm : chooseMode cf r = ParseMode.FullData) (hr : cf.remaining = 0) :
    mainLoop scan fs r 0 2 =
      ([Event.loaded cf, Event.modeChosen ParseMode.FullData,
        Event.enumArchives cf.latest_blk_idx,
        Event.nothingToDo cf.get_cur_height], Outcome.processExit 1) := by
  have h2 : mainLoop scan fs r 0 2 = mainLoop scan fs r 0 (1 + 1) := rfl
  rw [h2, mainLoop_step_stop scan fs r 0 1 _ _
      (iterate_noop scan fs r 0 cf h hm hr)]
  rfl

/-- Witness for the amended C2 at the concrete full-history storage. -/
theorem nothing_to_do_noop_exit_witness :
    load_chain_file fsFull = Except.ok csFull ∧
    chooseMode csFull false = ParseMode.FullData ∧
    csFull.remaining = 0 ∧
    mainLoop ChainStorage.default fsFull false 0 2 =
      ([Event.loaded csFull, Event.modeChosen ParseMode.FullData,
        Event.enumArchives csFull.latest_blk_idx,
        Event.nothingToDo csFull.get_cur_height], Outcome.processExit 1) :=
  ⟨rfl, rfl, rfl,
   nothing_to_do_noop_exit ChainStorage.default fsFull false csFull
     rfl rfl rfl⟩

/-- Claim C4: the chain-index load fails softly only on NotFound: an absent
file yields the default (fresh) storage and the run continues (no panic, and
the first iteration indeed loads the default storage); a readable file loads
as-is; an unparsable file aborts the run fatally before anything happens. -/
theorem load_soft_only_notfound (scan : ChainStorage) (fs fs2 : FileSystem)
    (r r2 : Bool) (s : ChainStorage)
    (habs : fs.chainFile = DiskFile.absent)
    (hcor : fs2.chainFile = DiskFile.corrupt) :
    load_chain_file fs = Except.ok ChainStorage.default ∧
    (mainLoop scan fs r 0 2).2 ≠ Outcome.panicked ∧
    (loadsOf (mainLoop scan fs r 0 2).1).get? 0 = some ChainStorage.default ∧
    load_chain_file { chainFile := DiskFile.good s, removeFails := false } =
      Except.ok s ∧
    load_chain_file fs2 = Except.error LoadErr.corruptState ∧
    mainLoop scan fs2 r2 0 2 = ([], Outcome.panicked) := by
  have hload := load_chain_file_absent fs habs
  have key : (mainLoop scan fs r 0 2).2 ≠ Outcome.panicked ∧
      (loadsOf (mainLoop scan fs r 0 2).1).get? 0 =
        some ChainStorage.default := by
    rcases mainLoop_shape scan fs r with ⟨hc, heq⟩ | ⟨cf, hcf, hcase⟩
    · rw [habs] at hc; cases hc
    · have hdef : cf = ChainStorage.default := by
        rw [hload] at hcf
        exact (Except.ok.inj hcf).symm
      subst hdef
      rcases hcase with ⟨hm, hr, heq⟩ | ⟨hm, hr, heq⟩ | ⟨hm, hsub⟩
      · rw [heq]; exact ⟨by simp, by simp [loadsOf, noopTrace]⟩
      · rw [heq]; exact ⟨by simp, by simp [loadsOf, fdTrace]⟩
      · rcases hsub with ⟨hm2, heq⟩ | ⟨hm2, hr2, heq⟩ | ⟨hm2, hr2, heq⟩ <;>
          rw [heq]
        · exact ⟨by simp, by simp [loadsOf, hoTrace]⟩
        · exact ⟨by simp, by simp [loadsOf, hoTrace, noopTrace]⟩
        · exact ⟨by simp, by simp [loadsOf, hoTrace, fdTrace]⟩
  exact ⟨hload, key.1, key.2, load_chain_file_good _ s rfl,
    load_chain_file_corrupt fs2 hcor, mainLoop_corrupt scan fs2 r2 hcor⟩

/-- Witness for C4 at concrete filesystems. -/
theorem load_soft_only_notfound_witness :
    (⟨DiskFile.absent, false⟩ : FileSystem).chainFile = DiskFile.absent ∧
    (⟨DiskFile.corrupt, false⟩ : FileSystem).chainFile = DiskFile.corrupt ∧
    (load_chain_file ⟨DiskFile.absent, false⟩ =
        Except.ok ChainStorage.default ∧
      (mainLoop ⟨[9], 0, 2⟩ ⟨DiskFile.absent, false⟩ false 0 2).2 ≠
        Outcome.panicked ∧
      (loadsOf (mainLoop ⟨[9], 0, 2⟩ ⟨DiskFile.absent, false⟩ false
        0 2).1).get? 0 = some ChainStorage.default ∧
      load_chain_file
          { chainFile := DiskFile.good ⟨[9], 0, 2⟩, removeFails := false } =
        Except.ok ⟨[9], 0, 2⟩ ∧
      load_chain_file ⟨DiskFile.corrupt, false⟩ =
        Except.error LoadErr.corruptState ∧
      mainLoop ⟨[9], 0, 2⟩ ⟨DiskFile.corrupt, false⟩ false 0 2 =
        ([], Outcome.panicked)) :=
  ⟨rfl, rfl,
   load_soft_only_notfound ⟨[9], 0, 2⟩ ⟨DiskFile.absent, false⟩
     ⟨DiskFile.corrupt, false⟩ false false ⟨[9], 0, 2⟩ rfl rfl⟩

/-- Modelled from the spec (§4.1 ArchiveIndex): `BlkFile::from_path` — the
`blockchain::utils::blkfile` module is not among the provided sources.  Given
the directory's archive sequence indices and a starting index, it returns the
files with index ≥ start, sorted ascending. -/
def from_path (files : List Nat) (start_blk_idx : Nat) : List Nat :=
  List.insertionSort (· ≤ ·)
    (files.filter (fun i => decide (start_blk_idx ≤ i)))

/-- Modelled from the spec (§4.6): the FullData phase "iterates ChainStorage's
canonical entries starting at the first unprocessed height" —
`BlockchainParser` is not among the provided sources.  These are the heights
it visits, in order. -/
def fullDataHeights (s : ChainStorage) : List Nat :=
  List.range' s.get_cur_height s.remaining

/-- Claim C3: a resumed run reprocesses no height already present in the
persisted chain storage: the archive enumeration of each iteration starts at
the persisted `latest_blk_idx` exactly when the mode is FullData (and at 0 for
HeaderOnly), `from_path` only returns archive files with sequence index ≥ that
start, and the FullData phase visits exactly the heights from the first
unprocessed one upward — every visited height is ≥ the current height, with no
duplicates. -/
theorem resume_skips_processed (scan : ChainStorage) (fs : FileSystem)
    (r : Bool) :
    enumsOf (mainLoop scan fs r 0 2).1 =
      List.zipWith startIdxOf (loadsOf (mainLoop scan fs r 0 2).1)
        (modesOf (mainLoop scan fs r 0 2).1) ∧
    (∀ cf : ChainStorage,
      startIdxOf cf ParseMode.FullData = cf.latest_blk_idx ∧
      startIdxOf cf ParseMode.HeaderOnly = 0) ∧
    (∀ s : ChainStorage,
      fullDataHeights s = List.range' s.get_cur_height s.remaining ∧
      (∀ h ∈ fullDataHeights s, s.get_cur_height ≤ h) ∧
      (fullDataHeights s).Nodup) ∧
    (∀ files start_blk_idx i, i ∈ from_path files start_blk_idx →
      start_blk_idx ≤ i ∧ i ∈ files) := by
  have hpart2 : ∀ cf : ChainStorage,
      startIdxOf cf ParseMode.FullData = cf.latest_blk_idx ∧
      startIdxOf cf ParseMode.HeaderOnly = 0 := fun cf => ⟨rfl, rfl⟩
  have hpart3 : ∀ s : ChainStorage,
      fullDataHeights s = List.range' s.get_cur_height s.remaining ∧
      (∀ h ∈ fullDataHeights s, s.get_cur_height ≤ h) ∧
      (fullDataHeights s).Nodup := by
    intro s
    refine ⟨rfl, ?_, ?_⟩
    · intro h hh
      have := List.mem_range'_1.mp hh
      exact this.1
    · exact List.nodup_range' _ _
  have hpart4 : ∀ files start_blk_idx i, i ∈ from_path files start_blk_idx →
      start_blk_idx ≤ i ∧ i ∈ files := by
    intro files start_blk_idx i hi
    have hi2 : i ∈ files.filter (fun j => decide (start_blk_idx ≤ j)) :=
      (List.perm_insertionSort _ _).subset hi
    have := List.mem_filter.mp hi2
    exact ⟨by simpa using this.2, this.1⟩
  refine ⟨?_, hpart2, hpart3, hpart4⟩
  rcases mainLoop_shape scan fs r with ⟨hc, heq⟩ | ⟨cf, hcf, hcase⟩
  · rw [heq]
    simp [enumsOf, loadsOf, modesOf]
  · rcases hcase with ⟨hm, hr, heq⟩ | ⟨hm, hr, heq⟩ | ⟨hm, hsub⟩
    · rw [heq]
      simp [enumsOf, loadsOf, modesOf, noopTrace, startIdxOf]
    · rw [heq]
      simp [enumsOf, loadsOf, modesOf, fdTrace, startIdxOf]
    · rcases hsub with ⟨hm2, heq⟩ | ⟨hm2, hr2, heq⟩ | ⟨hm2, hr2, heq⟩ <;>
        rw [heq]
      · simp [enumsOf, loadsOf, modesOf, hoTrace, startIdxOf]
      · simp [enumsOf, loadsOf, modesOf, hoTrace, noopTrace, startIdxOf]
      · simp [enumsOf, loadsOf, modesOf, hoTrace, fdTrace, startIdxOf]

/-- Claim C5: simultaneous `--new` and `--resume`, or an unregistered callback
name, terminate the run with `process::exit(2)` — a nonzero exit code — before
anything else happens: the emitted trace is empty, so the chain index is never
loaded and no archive file is read, and the conflict is never silently
resolved in favor of one flag. -/
theorem config_error_before_scan (a : ArgInput) (scan : ChainStorage)
    (fs : FileSystem)
    (hbad : (a.new = true ∧ a.resume = true) ∨
      (a.callback_name ≠ "simplestats" ∧ a.callback_name ≠ "csvdump")) :
    mainProgram a scan fs = ([], Outcome.processExit 2) ∧
    Outcome.isSuccess (mainProgram a scan fs).2 = false := by
  have hpa : parse_args a = Except.error 2 := by
    rcases hbad with ⟨hn, hr⟩ | ⟨h1, h2⟩
    · simp [parse_args, hn, hr]
    · by_cases hnr : (a.new && a.resume) = true
      · simp [parse_args, hnr]
      · simp [parse_args, hnr, h1, h2]
  refine ⟨?_, ?_⟩ <;> simp [mainProgram, hpa, Outcome.isSuccess]

/-- Command-line input with both force-fresh and force-resume selected. -/
def conflictingArgs : ArgInput :=
  ⟨"csvdump", ["out"], false, 2, true, true, "./blocks", "./chain.json", 100,
   false, false⟩

/-- Witness for C5 at the concrete conflicting input. -/
theorem config_error_before_scan_witness :
    ((conflictingArgs.new = true ∧ conflictingArgs.resume = true) ∨
      (conflictingArgs.callback_name ≠ "simplestats" ∧
        conflictingArgs.callback_name ≠ "csvdump")) ∧
    (mainProgram conflictingArgs ChainStorage.default ⟨DiskFile.absent, false⟩
        = ([], Outcome.processExit 2) ∧
      Outcome.isSuccess (mainProgram conflictingArgs ChainStorage.default
        ⟨DiskFile.absent, false⟩).2 = false) :=
  ⟨Or.inl ⟨rfl, rfl⟩,
   config_error_before_scan conflictingArgs ChainStorage.default
     ⟨DiskFile.absent, false⟩ (Or.inl ⟨rfl, rfl⟩)⟩

/-- Claim C9: whenever `parse_args` succeeds, the configured callback's
argument list is the user's token list with the synthetic token
`Callback "<name>"` prepended before the callback's own argument parsing is
invoked: index 0 holds the synthetic token and the user's own tokens start at
index 1, never at index 0. -/
theorem callback_args_prefixed (a : ArgInput) (o : ParserOptions)
    (h : parse_args a = Except.ok o) :
    o.callback.args = syntheticToken a.callback_name :: a.callback_args ∧
    o.callback.args.get? 0 = some (syntheticToken a.callback_name) ∧
    o.callback.args.drop 1 = a.callback_args := by
  have hnr : (a.new && a.resume) = false := by
    by_contra hc
    rw [Bool.not_eq_false] at hc
    simp [parse_args, hc] at h
  by_cases e1 : a.callback_name = "simplestats"
  · simp [parse_args, hnr, e1] at h
    rw [← h]
    exact ⟨by simp [e1], by simp [e1], by simp⟩
  · by_cases e2 : a.callback_name = "csvdump"
    · simp [parse_args, hnr, e1, e2] at h
      rw [← h]
      exact ⟨by simp [e2], by simp [e2], by simp⟩
    · simp [parse_args, hnr, e1, e2] at h

/-- Command-line input selecting csvdump with two user tokens. -/
def okArgs : ArgInput :=
  ⟨"csvdump", ["dir", "4"], false, 2, false, false, "./blocks",
   "./chain.json", 100, false, false⟩

/-- Witness for C9 at the concrete input `okArgs`. -/
theorem callback_args_prefixed_witness :
    parse_args okArgs = Except.ok
      ⟨⟨CallbackKind.csvdump, ["Callback \"csvdump\"", "dir", "4"]⟩, false, 2,
        false, false, "./blocks", "./chain.json", 100, false, false⟩ ∧
    (⟨⟨CallbackKind.csvdump, ["Callback \"csvdump\"", "dir", "4"]⟩, false, 2,
        false, false, "./blocks", "./chain.json", 100, false, false⟩ :
        ParserOptions).callback.args =
      syntheticToken okArgs.callback_name :: okArgs.callback_args ∧
    ((⟨⟨CallbackKind.csvdump, ["Callback \"csvdump\"", "dir", "4"]⟩, false, 2,
        false, false, "./blocks", "./chain.json", 100, false, false⟩ :
        ParserOptions).callback.args).get? 0 =
      some (syntheticToken okArgs.callback_name) ∧
    ((⟨⟨CallbackKind.csvdump, ["Callback \"csvdump\"", "dir", "4"]⟩, false, 2,
        false, false, "./blocks", "./chain.json", 100, false, false⟩ :
        ParserOptions).callback.args).drop 1 = okArgs.callback_args := by
  refine ⟨rfl, ?_⟩
  have := callback_args_prefixed okArgs
    ⟨⟨CallbackKind.csvdump, ["Callback \"csvdump\"", "dir", "4"]⟩, false, 2,
      false, false, "./blocks", "./chain.json", 100, false, false⟩ rfl
  exact this

/-- Claim C6: with force-fresh selected (`--new`, not combined with
`--resume`) and the deletion of the chain-index file succeeding, the first
iteration loads the empty default storage and therefore runs HeaderOnly,
discarding all previously persisted state. -/
theorem force_fresh_starts_header_only (o : ParserOptions)
    (scan : ChainStorage) (fs : FileSystem)
    (hnew : o.new = true) (hres : o.resume = false)
    (hok : fs.removeFails = false) :
    (loadsOf (mainRunOpts o scan fs).1).get? 0 = some ChainStorage.default ∧
    (modesOf (mainRunOpts o scan fs).1).get? 0 =
      some ParseMode.HeaderOnly := by
  have hload : load_chain_file { fs with chainFile := DiskFile.absent } =
      Except.ok ChainStorage.default := load_chain_file_absent _ rfl
  have hm : chooseMode ChainStorage.default o.resume = ParseMode.HeaderOnly :=
    (chooseMode_headerOnly_iff _ _).2 (Or.inl rfl)
  unfold mainRunOpts
  have hfs1 : (if o.new then (remove_file fs).1 else fs) =
      { fs with chainFile := DiskFile.absent } := by
    simp [hnew, remove_file, hok]
  rw [hfs1]
  have h2 : mainLoop scan { fs with chainFile := DiskFile.absent } o.resume 0 2
      = mainLoop scan { fs with chainFile := DiskFile.absent } o.resume 0
        (1 + 1) := rfl
  rw [h2, mainLoop_step_next scan _ o.resume 0 1 _ _
      (iterate_headerOnly scan _ o.resume 0 ChainStorage.default hload hm)]
  constructor <;> simp [loadsOf, modesOf, hoTrace]

/-- A force-fresh options record (`--new` set, `--resume` not set). -/
def freshOpts : ParserOptions :=
  ⟨⟨CallbackKind.csvdump, ["Callback \"csvdump\""]⟩, false, 2, false, true,
   "./blocks", "./chain.json", 100, false, false⟩

/-- Witness for C6 at concrete options and a filesystem holding stale
state. -/
theorem force_fresh_starts_header_only_witness :
    freshOpts.new = true ∧ freshOpts.resume = false ∧
    (⟨DiskFile.good csFull, false⟩ : FileSystem).removeFails = false ∧
    ((loadsOf (mainRunOpts freshOpts ⟨[3], 0, 1⟩
        ⟨DiskFile.good csFull, false⟩).1).get? 0 =
          some ChainStorage.default ∧
      (modesOf (mainRunOpts freshOpts ⟨[3], 0, 1⟩
        ⟨DiskFile.good csFull, false⟩).1).get? 0 =
          some ParseMode.HeaderOnly) :=
  ⟨rfl, rfl, rfl,
   force_fresh_starts_header_only freshOpts ⟨[3], 0, 1⟩
     ⟨DiskFile.good csFull, false⟩ rfl rfl rfl⟩

/-- Claim C10: with force-fresh selected but the deletion of the chain-index
file failing, the error is silently discarded (the `.ok()` on
`fs::remove_file`): the filesystem is left unchanged and the run proceeds, so
a still-readable non-empty stale file makes the first iteration load the old
persisted state and run FullData instead of starting fresh. -/
theorem force_fresh_delete_failure_ignored (o : ParserOptions)
    (scan : ChainStorage) (fs : FileSystem) (s : ChainStorage)
    (hnew : o.new = true) (hres : o.resume = false)
    (hfail : fs.removeFails = true) (hgood : fs.chainFile = DiskFile.good s)
    (hne : s.len ≠ 0) :
    (remove_file fs).2 = Except.error () ∧
    (remove_file fs).1 = fs ∧
    (loadsOf (mainRunOpts o scan fs).1).get? 0 = some s ∧
    (modesOf (mainRunOpts o scan fs).1).get? 0 = some ParseMode.FullData := by
  have hrm : remove_file fs = (fs, Except.error ()) := by
    simp [remove_file, hfail]
  have hload : load_chain_file fs = Except.ok s := load_chain_file_good fs s hgood
  have hm : chooseMode s o.resume = ParseMode.FullData :=
    (chooseMode_fullData_iff _ _).2 ⟨hne, hres⟩
  refine ⟨by rw [hrm], by rw [hrm], ?_⟩
  unfold mainRunOpts
  have hfs1 : (if o.new then (remove_file fs).1 else fs) = fs := by
    simp [hnew, hrm]
  rw [hfs1]
  have h2 : mainLoop scan fs o.resume 0 2 =
      mainLoop scan fs o.resume 0 (1 + 1) := rfl
  by_cases hr : s.remaining = 0
  · rw [h2, mainLoop_step_stop scan fs o.resume 0 1 _ _
        (iterate_noop scan fs o.resume 0 s hload hm hr)]
    constructor <;> simp [loadsOf, modesOf, noopTrace]
  · rw [h2, mainLoop_step_stop scan fs o.resume 0 1 _ _
        (iterate_fullData scan fs o.resume 0 s hload hm hr)]
    constructor <;> simp [loadsOf, modesOf, fdTrace]

/-- Witness for C10: stale readable chain file, failing delete. -/
theorem force_fresh_delete_failure_ignored_witness :
    freshOpts.new = true ∧ freshOpts.resume = false ∧
    (⟨DiskFile.good csFull, true⟩ : FileSystem).removeFails = true ∧
    (⟨DiskFile.good csFull, true⟩ : FileSystem).chainFile =
      DiskFile.good csFull ∧
    csFull.len ≠ 0 ∧
    ((remove_file ⟨DiskFile.good csFull, true⟩).2 = Except.error () ∧
      (remove_file ⟨DiskFile.good csFull, true⟩).1 =
        ⟨DiskFile.good csFull, true⟩ ∧
      (loadsOf (mainRunOpts freshOpts ⟨[3], 0, 1⟩
        ⟨DiskFile.good csFull, true⟩).1).get? 0 = some csFull ∧
      (modesOf (mainRunOpts freshOpts ⟨[3], 0, 1⟩
        ⟨DiskFile.good csFull, true⟩).1).get? 0 =
          some ParseMode.FullData) :=
  ⟨rfl, rfl, rfl, rfl, by decide,
   force_fresh_delete_failure_ignored freshOpts ⟨[3], 0, 1⟩
     ⟨DiskFile.good csFull, true⟩ csFull rfl rfl rfl rfl (by decide)⟩

/-- Modelled from the spec (§5): the reorder buffer in front of the consumer
queue — the pipeline modules are not among the provided sources.  `drainBuf`
releases from the buffer `buf` the maximal run of consecutive heights starting
at `next`, in strict sequence, returning the new next-expected height, the
remaining buffer, and the released run; `fuel` bounds the recursion (a buffer
of length k can release at most k heights). -/
def drainBuf : Nat → Nat → List Nat → Nat × List Nat × List Nat
  | 0, next, buf => (next, buf, [])
  | fuel + 1, next, buf =>
    if next ∈ buf then
      let r := drainBuf fuel (next + 1) (buf.erase next)
      (r.1, r.2.1, next :: r.2.2)
    else (next, buf, [])

/-- Modelled from the spec (§5): decode workers complete blocks in an
arbitrary order (`arrivals`); the reorder buffer keyed by height releases them
into the consumer queue in strict height sequence.  Returns the released
sequence, the final next-expected height and the final buffer contents. -/
def reorder : Nat → List Nat → List Nat → List Nat × Nat × List Nat
  | next, buf, [] => ([], next, buf)
  | next, buf, a :: rest =>
    let r := drainBuf (a :: buf).length next (a :: buf)
    let s := reorder r.1 r.2.1 rest
    (r.2.2 ++ s.1, s.2.1, s.2.2)

lemma drainBuf_spec : ∀ (fuel next : Nat) (buf : List Nat),
    buf.Nodup → buf.length ≤ fuel →
    ((drainBuf fuel next buf).2.2 ++ (drainBuf fuel next buf).2.1).Perm buf ∧
    (drainBuf fuel next buf).2.2 =
      List.range' next ((drainBuf fuel next buf).1 - next) ∧
    next ≤ (drainBuf fuel next buf).1 ∧
    (drainBuf fuel next buf).1 ∉ (drainBuf fuel next buf).2.1 ∧
    (drainBuf fuel next buf).2.1.Nodup := by
  intro fuel
  induction fuel with
  | zero =>
    intro next buf hnd hlen
    have hbuf : buf = [] := List.length_eq_zero.mp (Nat.le_zero.mp hlen)
    subst hbuf
    simp [drainBuf]
  | succ fuel ih =>
    intro next buf hnd hlen
    by_cases hmem : next ∈ buf
    · have hdu : drainBuf (fuel + 1) next buf =
          ((drainBuf fuel (next + 1) (buf.erase next)).1,
           (drainBuf fuel (next + 1) (buf.erase next)).2.1,
           next :: (drainBuf fuel (next + 1) (buf.erase next)).2.2) := by
        simp [drainBuf, hmem]
      have hlen2 : (buf.erase next).length ≤ fuel := by
        rw [List.length_erase_of_mem hmem]
        omega
      obtain ⟨ihp, iho, ihle, ihni, ihnd⟩ :=
        ih (next + 1) (buf.erase next) (hnd.erase next) hlen2
      rw [hdu]
      dsimp only
      refine ⟨?_, ?_, ?_, ihni, ihnd⟩
      · exact (List.Perm.cons next ihp).trans (List.perm_cons_erase hmem).symm
      · rw [iho]
        have e : (drainBuf fuel (next + 1) (buf.erase next)).1 - next =
            ((drainBuf fuel (next + 1) (buf.erase next)).1 - (next + 1)) + 1 :=
          by omega
        rw [e, List.range'_succ]
      · omega
    · have hdu : drainBuf (fuel + 1) next buf = (next, buf, []) := by
        simp [drainBuf, hmem]
      rw [hdu]
      exact ⟨by simp, by simp, le_rfl, hmem, hnd⟩

lemma reorder_spec : ∀ (arr : List Nat) (next : Nat) (buf : List Nat)
    (n : Nat), next ≤ n → next ∉ buf →
    (buf ++ arr).Perm (List.range' next (n - next)) →
    reorder next buf arr = (List.range' next (n - next), n, []) := by
  intro arr
  induction arr with
  | nil =>
    intro next buf n hle hnb hperm
    rw [List.append_nil] at hperm
    have hnext : next = n := by
      by_contra hne
      have hmem : next ∈ List.range' next (n - next) := by
        rw [List.mem_range'_1]
        omega
      exact hnb (hperm.symm.subset hmem)
    subst hnext
    rw [Nat.sub_self] at hperm ⊢
    have hbuf : buf = [] := by
      simpa using hperm.eq_nil
    simp [reorder, hbuf]
  | cons a rest ih =>
    intro next buf n hle hnb hperm
    have hndall : (buf ++ a :: rest).Nodup :=
      hperm.symm.nodup (List.nodup_range' next (n - next))
    have hsub : List.Sublist (buf ++ [a]) (buf ++ a :: rest) :=
      List.Sublist.append_left
        (List.singleton_sublist.mpr (List.mem_cons_self a rest)) buf
    have hnd1 : (a :: buf).Nodup :=
      (List.perm_append_singleton a buf).nodup (List.Nodup.sublist hsub hndall)
    obtain ⟨hperm1, hout, hle1, hni, hnd2⟩ :=
      drainBuf_spec (a :: buf).length next (a :: buf) hnd1 le_rfl
    set r := drainBuf (a :: buf).length next (a :: buf) with hrdef
    have hel : ∀ x ∈ buf ++ a :: rest, x < n := by
      intro x hx
      have hx2 := hperm.subset hx
      rw [List.mem_range'_1] at hx2
      omega
    have hlen1 : r.1 ≤ n := by
      by_contra hgt
      push_neg at hgt
      have hm : r.1 - 1 ∈ r.2.2 := by
        rw [hout, List.mem_range'_1]
        omega
      have hm2 : r.1 - 1 ∈ a :: buf := hperm1.subset (List.mem_append_left _ hm)
      have hm3 : r.1 - 1 ∈ buf ++ a :: rest := by
        rcases List.mem_cons.mp hm2 with h | h
        · refine List.mem_append_right buf ?_
          rw [h]
          exact List.mem_cons_self a rest
        · exact List.mem_append_left _ h
      have := hel _ hm3
      omega
    have hB : ((a :: buf) ++ rest).Perm (buf ++ a :: rest) :=
      List.Perm.symm List.perm_middle
    have hC : (r.2.2 ++ (r.2.1 ++ rest)).Perm (List.range' next (n - next)) := by
      have h1 : ((r.2.2 ++ r.2.1) ++ rest).Perm (buf ++ a :: rest) :=
        (hperm1.append_right rest).trans hB
      have h2 := h1.trans hperm
      rw [List.append_assoc] at h2
      exact h2
    have hsplit : List.range' next (n - next) =
        List.range' next (r.1 - next) ++ List.range' r.1 (n - r.1) := by
      have e1 : next + (r.1 - next) = r.1 := by omega
      have e2 : (n - r.1) + (r.1 - next) = n - next := by omega
      rw [← e2, ← List.range'_append_1, e1]
    have hD : (r.2.1 ++ rest).Perm (List.range' r.1 (n - r.1)) := by
      have h3 : (r.2.2 ++ (r.2.1 ++ rest)).Perm
          (r.2.2 ++ List.range' r.1 (n - r.1)) := by
        rw [hsplit] at hC
        rw [← hout] at hC
        exact hC
      exact (List.perm_append_left_iff _).mp h3
    have hIH := ih r.1 r.2.1 n hlen1 hni hD
    show (r.2.2 ++ (reorder r.1 r.2.1 rest).1,
          (reorder r.1 r.2.1 rest).2.1, (reorder r.1 r.2.1 rest).2.2) =
        (List.range' next (n - next), n, [])
    rw [hIH]
    dsimp only
    rw [hout, hsplit]

lemma reorder_perm_range (n : Nat) (arrivals : List Nat)
    (h : arrivals.Perm (List.range n)) :
    (reorder 0 [] arrivals).1 = List.range n := by
  have h2 : (([] : List Nat) ++ arrivals).Perm (List.range' 0 (n - 0)) := by
    simpa [List.range_eq_range'] using h
  rw [reorder_spec arrivals 0 [] n (Nat.zero_le n) (by simp) h2]
  simp [List.range_eq_range']

/-- Modelled from the spec (§5): the state of the bounded producer/consumer
pipeline — the pipeline modules are not among the provided sources.
`pending` holds the blocks (by height) still to be enqueued by the producer,
in canonical order; `queue` is the bounded channel; `emitted` is the sequence
already handed to the consumer (the callback deliveries so far). -/
structure PipeState where
  pending : List Nat
  queue : List Nat
  emitted : List Nat
deriving DecidableEq, Repr

/-- Modelled from the spec (§5): one scheduler step.  On the producer's turn
it enqueues the next pending block if the queue is below capacity (a full
queue blocks the producer); on the consumer's turn it dequeues the oldest
block and delivers it (an empty queue blocks the consumer). -/
def pstep (cap : Nat) (producerTurn : Bool) (s : PipeState) : PipeState :=
  if producerTurn then
    match s.pending with
    | [] => s
    | b :: rest =>
      if s.queue.length < cap then
        { pending := rest, queue := s.queue ++ [b], emitted := s.emitted }
      else s
  else
    match s.queue with
    | [] => s
    | b :: q =>
      { pending := s.pending, queue := q, emitted := s.emitted ++ [b] }

/-- Run an arbitrary finite producer/consumer interleaving. -/
def runSched (cap : Nat) : List Bool → PipeState → PipeState
  | [], s => s
  | c :: cs, s => runSched cap cs (pstep cap c s)

/-- After the producer has no more input, both sides run to completion
(the spec's shutdown: drain and exit rather than deadlock). -/
def flushPipe (cap : Nat) : Nat → PipeState → PipeState
  | 0, s => s
  | fuel + 1, s => flushPipe cap fuel (pstep cap false (pstep cap true s))

/-- The sequence delivered to the consumer by a complete dispatch of `blocks`
through the bounded queue under an arbitrary schedule prefix `sched`. -/
def dispatchOutput (cap : Nat) (sched : List Bool) (blocks : List Nat) :
    List Nat :=
  let s := runSched cap sched ⟨blocks, [], []⟩
  (flushPipe cap (s.pending.length + s.queue.length) s).emitted

/-- Everything in the pipeline, in delivery order: already emitted, then
queued, then pending. -/
def PipeState.contents (s : PipeState) : List Nat :=
  s.emitted ++ s.queue ++ s.pending

lemma pstep_contents (cap : Nat) (c : Bool) (s : PipeState) :
    (pstep cap c s).contents = s.contents := by
  unfold pstep PipeState.contents
  cases c
  · cases hq : s.queue with
    | nil => simp [hq]
    | cons b q => simp [hq]
  · cases hp : s.pending with
    | nil => simp [hp]
    | cons b rest =>
      by_cases hlen : s.queue.length < cap <;> simp [hp, hlen]

lemma runSched_contents (cap : Nat) (cs : List Bool) (s : PipeState) :
    (runSched cap cs s).contents = s.contents := by
  induction cs generalizing s with
  | nil => rfl
  | cons c cs ih => rw [runSched, ih, pstep_contents]

lemma flushPipe_contents (cap : Nat) (fuel : Nat) (s : PipeState) :
    (flushPipe cap fuel s).contents = s.contents := by
  induction fuel generalizing s with
  | zero => rfl
  | succ fuel ih => rw [flushPipe, ih, pstep_contents, pstep_contents]

lemma flushPipe_drains (cap : Nat) (hcap : 1 ≤ cap) :
    ∀ (fuel : Nat) (s : PipeState),
      s.pending.length + s.queue.length ≤ fuel →
      (flushPipe cap fuel s).pending = [] ∧
      (flushPipe cap fuel s).queue = [] := by
  intro fuel
  induction fuel with
  | zero =>
    intro s hs
    have hp : s.pending = [] := by
      have := Nat.le_zero.mp hs
      exact List.length_eq_zero.mp (by omega)
    have hq : s.queue = [] := by
      have := Nat.le_zero.mp hs
      exact List.length_eq_zero.mp (by omega)
    exact ⟨hp, hq⟩
  | succ fuel ih =>
    intro s hs
    rw [flushPipe]
    apply ih
    cases hp : s.pending with
    | nil =>
      have e1 : pstep cap true s = s := by simp [pstep, hp]
      rw [e1]
      cases hq : s.queue with
      | nil =>
        have e2 : pstep cap false s = s := by simp [pstep, hq]
        rw [e2]
        simp [hp, hq]
      | cons b q =>
        have e2 : pstep cap false s =
            { pending := s.pending, queue := q,
              emitted := s.emitted ++ [b] } := by
          simp [pstep, hq]
        rw [e2]
        rw [hp, hq] at hs
        simp [hp] at hs ⊢
        omega
    | cons b rest =>
      by_cases hlen : s.queue.length < cap
      · have e1 : pstep cap true s =
            { pending := rest, queue := s.queue ++ [b],
              emitted := s.emitted } := by
          simp [pstep, hp, hlen]
        rw [e1]
        cases hq : s.queue with
        | nil =>
          have e2 : pstep cap false
              ({ pending := rest, queue := [] ++ [b],
                 emitted := s.emitted } : PipeState) =
              { pending := rest, queue := [],
                emitted := s.emitted ++ [b] } := by
            simp [pstep]
          rw [e2]
          rw [hp, hq] at hs
          simp at hs ⊢
          omega
        | cons c q =>
          have e2 : pstep cap false
              ({ pending := rest, queue := (c :: q) ++ [b],
                 emitted := s.emitted } : PipeState) =
              { pending := rest, queue := q ++ [b],
                emitted := s.emitted ++ [c] } := by
            simp [pstep]
          rw [e2]
          rw [hp, hq] at hs
          simp at hs ⊢
          omega
      · cases hq : s.queue with
        | nil =>
          rw [hq] at hlen
          simp at hlen
          omega
        | cons c q =>
          have e1 : pstep cap true s = s := by simp [pstep, hp, hlen]
          rw [e1]
          have e2 : pstep cap false s =
              { pending := s.pending, queue := q,
                emitted := s.emitted ++ [c] } := by
            simp [pstep, hq]
          rw [e2]
          rw [hp, hq] at hs
          simp [hp] at hs ⊢
          omega

lemma dispatchOutput_eq (cap : Nat) (hcap : 1 ≤ cap) (sched : List Bool)
    (blocks : List Nat) : dispatchOutput cap sched blocks = blocks := by
  unfold dispatchOutput
  set s := runSched cap sched ⟨blocks, [], []⟩ with hs
  set t := flushPipe cap (s.pending.length + s.queue.length) s with ht
  have hdr : t.pending = [] ∧ t.queue = [] :=
    flushPipe_drains cap hcap (s.pending.length + s.queue.length) s le_rfl
  have hct : t.contents = blocks := by
    rw [ht, flushPipe_contents, hs, runSched_contents]
    simp [PipeState.contents]
  rw [PipeState.contents, hdr.1, hdr.2] at hct
  simpa using hct

/-- The callback contract's observable events (spec §6). -/
inductive CbEvent where
  | on_start
  | on_block (height : Nat)
  | on_complete
deriving DecidableEq, Repr

/-- Modelled from the spec (§5, §6): the callback trace of a FullData
dispatch — the pipeline and callback modules are not among the provided
sources.  Decode workers finish blocks in the arbitrary order `arrivals`
(a permutation of the canonical heights); the reorder buffer releases them
into the bounded queue in strict height sequence; the consumer delivers each
dequeued block via on_block, with on_start once before any delivery and
on_complete once after the last. -/
def pipelineTrace (cap : Nat) (sched : List Bool) (arrivals : List Nat) :
    List CbEvent :=
  let ordered := (reorder 0 [] arrivals).1
  let delivered := dispatchOutput cap sched ordered
  CbEvent.on_start :: delivered.map CbEvent.on_block ++ [CbEvent.on_complete]

/-- Claim C7: for every corpus of n canonical blocks (decode workers may
finish them in any order — any permutation of heights 0..n-1), every queue
backlog ≥ 1 (including 1) and every producer/consumer schedule, the callback
observes on_start first, then on_block exactly n times in strictly ascending
height order 0..n-1 with no gaps and no duplicates, then on_complete. -/
theorem callback_order_guarantee (n cap : Nat) (sched : List Bool)
    (arrivals : List Nat) (hcap : 1 ≤ cap)
    (harr : arrivals.Perm (List.range n)) :
    pipelineTrace cap sched arrivals =
      CbEvent.on_start :: (List.range n).map CbEvent.on_block ++
        [CbEvent.on_complete] := by
  unfold pipelineTrace
  simp only [reorder_perm_range n arrivals harr, dispatchOutput_eq cap hcap]

/-- Witness for C7: the spec's scenario — three archive files holding blocks
at heights 0–5 (workers finish them out of order), backlog 1. -/
theorem callback_order_guarantee_witness :
    1 ≤ 1 ∧ List.Perm [1, 0, 3, 2, 5, 4] (List.range 6) ∧
    pipelineTrace 1 [true, false, true] [1, 0, 3, 2, 5, 4] =
      CbEvent.on_start :: (List.range 6).map CbEvent.on_block ++
        [CbEvent.on_complete] :=
  ⟨le_rfl, by decide,
   callback_order_guarantee 6 1 [true, false, true] [1, 0, 3, 2, 5, 4]
     le_rfl (by decide)⟩
